import Mathlib

/-!
Gain plugin: processor, parameter store and state persistence.

A shallow embedding of `source/PluginProcessor.cpp`.

* `F32` is the IEEE-754 binary32 format in which the samples and the gain are
  held, with the multiplication used by the sample loop and the comparisons
  used by the parameter range.
* `AudioBuffer`, `PluginProcessor`, `processBlock`, `isBusesLayoutSupported`,
  `getStateInformation` and `setStateInformation` follow the source.
* The parameter store (`AudioProcessorValueTreeState`) is framework code; it is
  modelled from the specification.  The XML reader and writer of the framework
  are taken as parameters (`XmlCodec`).
-/

set_option autoImplicit false

/-! ## IEEE-754 binary32 values -/

/-- A binary32 value.  `fin sign expo mant` is a zero, subnormal or normal
number with biased exponent `expo` (0 to 254) and 23 stored fraction bits;
NaN payloads are not distinguished. -/
inductive F32 where
  | nan : F32
  | inf (sign : Bool) : F32
  | fin (sign : Bool) (expo : Fin 255) (mant : Fin 8388608) : F32
deriving DecidableEq, Repr

namespace F32

/-- The literal `0.0f`. -/
def zero : F32 := .fin false 0 0

/-- The literal `0.5f`. -/
def half : F32 := .fin false 126 0

/-- The literal `1.0f`. -/
def one : F32 := .fin false 127 0

/-- The literal `2.0f`. -/
def two : F32 := .fin false 128 0

/-- The literal `0.01f` (bit pattern `0x3C23D70A`). -/
def hundredth : F32 := .fin false 120 2348810

/-- Whether the value is a number (neither NaN nor an infinity). -/
def isFinite : F32 → Bool
  | .fin _ _ _ => true
  | _ => false

/-- Whether the value is `+0.0` or `-0.0`. -/
def isZero : F32 → Bool
  | .fin _ e m => decide (e.val = 0 ∧ m.val = 0)
  | _ => false

/-- Number of binary digits of `n`, computed with `fuel` halvings. -/
def bitLengthAux : Nat → Nat → Nat
  | 0, _ => 0
  | fuel + 1, n => if n = 0 then 0 else bitLengthAux fuel (n / 2) + 1

/-- Number of binary digits of `n` (`0` for `0`); `n` halvings always suffice. -/
def bitLength (n : Nat) : Nat := bitLengthAux n n

/-- The quotient `p / 2^k` rounded to nearest, ties to even. -/
def roundShift (p k : Nat) : Nat :=
  let q := p / 2 ^ k
  let r := p % 2 ^ k
  if 2 ^ k < 2 * r ∨ (2 * r = 2 ^ k ∧ q % 2 = 1) then q + 1 else q

/-- Integer significand of a finite operand: the hidden bit is set for a normal
number; with `flush` (denormals-are-zero) a subnormal operand counts as zero. -/
def significand (flush : Bool) (e : Fin 255) (m : Fin 8388608) : Nat :=
  if e.val = 0 then (if flush then 0 else m.val) else 8388608 + m.val

/-- Exponent scale of a finite operand: subnormals share the scale of the
smallest normal exponent. -/
def scale (e : Fin 255) : Nat :=
  if e.val = 0 then 1 else e.val

/-- Rounds the exact product `p * 2^(es - 300)`, `p > 0`, to binary32 (round to
nearest even).  The result is first normalised to 24 significant bits with an
unbounded exponent; a result above the largest exponent becomes an infinity; a
result below the smallest normal exponent is tiny and is either flushed to a
signed zero (`flush`) or rounded once onto the subnormal grid. -/
def pack (flush : Bool) (sign : Bool) (p es : Nat) : F32 :=
  let len := bitLength p
  let m24 := if len ≤ 24 then p * 2 ^ (24 - len) else roundShift p (len - 24)
  let carry := decide (m24 = 16777216)
  let m := if carry then 8388608 else m24
  let bexp := es + len + (if carry then 1 else 0)
  if 429 ≤ bexp then .inf sign
  else if h : 175 ≤ bexp ∧ bexp - 174 < 255 then
    .fin sign ⟨bexp - 174, h.2⟩ ⟨(m - 8388608) % 8388608, Nat.mod_lt _ (by decide)⟩
  else if flush then .fin sign 0 0
  else
    let q := if 151 ≤ es then p * 2 ^ (es - 151) else roundShift p (151 - es)
    if hq : q < 8388608 then .fin sign 0 ⟨q, hq⟩ else .fin sign 1 0

/-- The binary32 product `a * b` in round-to-nearest-even.  `flush` is the
flush-to-zero and denormals-are-zero mode that `juce::ScopedNoDenormals`
requests for the duration of `processBlock`. -/
def mul (flush : Bool) : F32 → F32 → F32
  | .nan, _ => .nan
  | _, .nan => .nan
  | .inf s, .inf t => .inf (xor s t)
  | .inf s, .fin t e m => if significand flush e m = 0 then .nan else .inf (xor s t)
  | .fin s e m, .inf t => if significand flush e m = 0 then .nan else .inf (xor s t)
  | .fin s e m, .fin t e2 m2 =>
    let p := significand flush e m * significand flush e2 m2
    if p = 0 then .fin (xor s t) 0 0
    else pack flush (xor s t) p (scale e + scale e2)

/-- Position of a non-NaN value in the order of the extended reals (both zeros
map to `0`); `none` for NaN. -/
def key : F32 → Option Int
  | .nan => none
  | .inf s => some (if s then -2139095040 else 2139095040)
  | .fin s e m =>
    some (if s then -((e.val * 8388608 + m.val : Nat) : Int) else ((e.val * 8388608 + m.val : Nat) : Int))

/-- The comparison `a < b` of C++ on `float`: false when an operand is NaN. -/
def lt (a b : F32) : Bool :=
  match key a, key b with
  | some x, some y => decide (x < y)
  | _, _ => false

/-- The comparison `a <= b` of C++ on `float`: false when an operand is NaN. -/
def le (a b : F32) : Bool :=
  match key a, key b with
  | some x, some y => decide (x ≤ y)
  | _, _ => false

/-- The bit pattern of a value (the default quiet NaN for `nan`). -/
def toBits : F32 → Nat
  | .nan => 2143289344
  | .inf s => (if s then 2147483648 else 0) + 2139095040
  | .fin s e m => (if s then 2147483648 else 0) + e.val * 8388608 + m.val

/-- The value with the given bit pattern (taken modulo `2^32`). -/
def ofBits (b : Nat) : F32 :=
  let s := decide (b / 2147483648 % 2 = 1)
  let e := b / 8388608 % 256
  if h : e < 255 then .fin s ⟨e, h⟩ ⟨b % 8388608, Nat.mod_lt _ (by decide)⟩
  else if b % 8388608 = 0 then .inf s else .nan

end F32

/-! ## Audio blocks -/

/-- An audio block (`juce::AudioBuffer<float>`): `channels` holds one list of
samples per channel, `size` is the number of samples of each channel. -/
structure AudioBuffer where
  size : Nat
  channels : List (List F32)
deriving DecidableEq, Repr

namespace AudioBuffer

/-- The call `buffer.getNumChannels()`. -/
def getNumChannels (b : AudioBuffer) : Nat := b.channels.length

/-- The call `buffer.getNumSamples()`. -/
def getNumSamples (b : AudioBuffer) : Nat := b.size

/-- Every channel of the block holds exactly `size` samples. -/
def WellFormed (b : AudioBuffer) : Prop := ∀ ch ∈ b.channels, ch.length = b.size

/-- The sample `sample` of channel `channel`, when both indices are in range. -/
def getSample (b : AudioBuffer) (channel sample : Nat) : Option F32 :=
  (b.channels[channel]?).bind (fun data => data[sample]?)

/-- Writes `0.0f` to `count` consecutive samples starting at index `sample`. -/
def clearSamples : Nat → Nat → List F32 → List F32
  | 0, _, data => data
  | count + 1, sample, data => clearSamples count (sample + 1) (data.set sample F32.zero)

/-- The call `buffer.clear (channel, startSample, numSamples)`; `none` when the
channel or the sample region lies outside the block (an assertion failure in
the framework). -/
def clear (b : AudioBuffer) (channel startSample numSamples : Nat) : Option AudioBuffer :=
  if channel < b.channels.length ∧ startSample + numSamples ≤ b.size then
    some ⟨b.size, b.channels.modify (clearSamples numSamples startSample) channel⟩
  else none

/-- The call `buffer.getWritePointer (channel)`: the sample data of the channel;
`none` when the block has no such channel. -/
def getWritePointer (b : AudioBuffer) (channel : Nat) : Option (List F32) :=
  b.channels[channel]?

/-- The block after the data reached through the write pointer of `channel`
has become `data`. -/
def store (b : AudioBuffer) (channel : Nat) (data : List F32) : AudioBuffer :=
  ⟨b.size, b.channels.set channel data⟩

end AudioBuffer

/-- The MIDI events handed to `processBlock`; the processor ignores them. -/
abbrev MidiBuffer := List (List (Fin 256))

/-- A block of bytes (`juce::MemoryBlock`, or a pointer with a size). -/
abbrev MemoryBlock := List (Fin 256)

/-! ## Parameter store -/

/-- The range `juce::NormalisableRange<float> (rangeStart, rangeEnd,
intervalValue, skewFactor)`. -/
structure NormalisableRange where
  rangeStart : F32
  rangeEnd : F32
  intervalValue : F32
  skewFactor : F32
deriving DecidableEq, Repr

/-- The arguments of a `juce::AudioParameterFloat` declaration. -/
structure AudioParameterFloat where
  parameterID : String
  versionHint : Nat
  parameterName : String
  range : NormalisableRange
  defaultValue : F32
deriving DecidableEq, Repr

/-- The function `PluginProcessor::createParameterLayout`: one float parameter
`"gain"`. -/
def createParameterLayout : List AudioParameterFloat :=
  [⟨"gain", 1, "Gain", ⟨F32.zero, F32.two, F32.hundredth, F32.one⟩, F32.one⟩]

/-- Modelled from the spec: a Parameter of the Parameter Store (identifier,
display name, minimum, maximum, step size, default value, current value).  The
framework classes behind it are not part of the sources. -/
structure Parameter where
  identifier : String
  displayName : String
  minimum : F32
  maximum : F32
  stepSize : F32
  defaultValue : F32
  currentValue : F32
deriving DecidableEq, Repr

/-- Modelled from the spec: the clamp of the Parameter Store, `clamp(v, lo, hi)`:
`lo` when `v < lo`, `v` itself when `lo <= v <= hi`, and `hi` otherwise.  The
spec keeps the current value inside `[min, max]` at all times and clamps every
write outside the range, so a value that is not inside the range and not below
it (a value above it, or NaN) becomes `hi`.  The framework code that constrains
a parameter value is not part of the sources. -/
def clamp (v lo hi : F32) : F32 :=
  if F32.lt v lo then lo else if F32.le v hi then v else hi

/-- Whether `lo <= v` and `v <= hi`. -/
def inRange (v lo hi : F32) : Bool := F32.le lo v && F32.le v hi

/-- Modelled from the spec: the persisted form of the Parameter Store, a tag
and a sequence of (identifier, value) pairs.  The framework class
`juce::ValueTree` is not part of the sources. -/
structure ValueTree where
  type : String
  values : List (String × F32)
deriving DecidableEq, Repr

/-- Modelled from the spec: the Parameter Store, an ordered collection of
Parameters and the tag under which its state is persisted.  The framework class
`juce::AudioProcessorValueTreeState` is not part of the sources. -/
structure AudioProcessorValueTreeState where
  stateType : String
  params : List Parameter
deriving DecidableEq, Repr

namespace AudioProcessorValueTreeState

/-- Modelled from the spec: the declared Parameter for one entry of the layout,
its current value being the default.  The framework constructor is not part of
the sources. -/
def declare (a : AudioParameterFloat) : Parameter :=
  ⟨a.parameterID, a.parameterName, a.range.rangeStart, a.range.rangeEnd,
    a.range.intervalValue, a.defaultValue, a.defaultValue⟩

/-- Modelled from the spec: the store built at construction,
`parameters (*this, nullptr, valueTreeType, layout)`.  The framework constructor
is not part of the sources. -/
def create (valueTreeType : String) (layout : List AudioParameterFloat) :
    AudioProcessorValueTreeState :=
  ⟨valueTreeType, layout.map declare⟩

/-- Modelled from the spec: `set(id, value)` clamps `value` to `[min, max]` and
commits it.  The framework code that writes a parameter is not part of the
sources. -/
def set (s : AudioProcessorValueTreeState) (id : String) (value : F32) :
    AudioProcessorValueTreeState :=
  ⟨s.stateType, s.params.map (fun p =>
    if p.identifier = id then
      ⟨p.identifier, p.displayName, p.minimum, p.maximum, p.stepSize, p.defaultValue,
        clamp value p.minimum p.maximum⟩
    else p)⟩

/-- Modelled from the spec: `get(id)`, the most recently committed value, read
in the source through `getRawParameterValue`; `none` (a null pointer) when no
parameter has this identifier.  The framework code is not part of the sources. -/
def getRawParameterValue (s : AudioProcessorValueTreeState) (id : String) : Option F32 :=
  (s.params.find? (fun p => decide (p.identifier = id))).map (fun p => p.currentValue)

/-- Modelled from the spec: `snapshot()`, the ordered list of (id, value). -/
def snapshot (s : AudioProcessorValueTreeState) : List (String × F32) :=
  s.params.map (fun p => (p.identifier, p.currentValue))

/-- Modelled from the spec: the state handed to the codec by `copyState`, the
tag of the store with its snapshot.  The framework code is not part of the
sources. -/
def copyState (s : AudioProcessorValueTreeState) : ValueTree :=
  ⟨s.stateType, s.snapshot⟩

/-- Modelled from the spec: `replaceState`, the load of a decoded state: each
declared identifier takes the value stored for it, clamped into its range as in
`set`; unknown keys are ignored and a missing key falls back to the
declared default.  The framework code is not part of the sources. -/
def replaceState (s : AudioProcessorValueTreeState) (t : ValueTree) :
    AudioProcessorValueTreeState :=
  ⟨s.stateType, s.params.map (fun p =>
    match t.values.lookup p.identifier with
    | some v =>
      ⟨p.identifier, p.displayName, p.minimum, p.maximum, p.stepSize, p.defaultValue,
        clamp v p.minimum p.maximum⟩
    | none =>
      ⟨p.identifier, p.displayName, p.minimum, p.maximum, p.stepSize, p.defaultValue,
        p.defaultValue⟩)⟩

end AudioProcessorValueTreeState

/-- The XML reader and writer of the framework, which the sources call but do
not contain: `getXmlFromBinary` (`none` for a null result), `copyXmlToBinary`,
`XmlElement::hasTagName`, `ValueTree::createXml` and `ValueTree::fromXml`,
together with `XmlElement::getTagName`, the name of the root tag of a
document. -/
structure XmlCodec (XmlElement : Type) where
  getXmlFromBinary : MemoryBlock → Option XmlElement
  copyXmlToBinary : XmlElement → MemoryBlock
  hasTagName : XmlElement → String → Bool
  createXml : ValueTree → XmlElement
  fromXml : XmlElement → ValueTree
  getTagName : XmlElement → String

/-! ## The processor -/

/-- The build switches `JucePlugin_IsMidiEffect` and `JucePlugin_IsSynth`. -/
structure PluginConfig where
  JucePlugin_IsMidiEffect : Bool
  JucePlugin_IsSynth : Bool
deriving DecidableEq, Repr

/-- The effect configuration: neither a MIDI effect nor a synth. -/
def PluginConfig.effect : PluginConfig := ⟨false, false⟩

/-- The state of a `PluginProcessor` that the modelled methods read: the
channel counts of the enabled buses (`getTotalNumInputChannels`,
`getTotalNumOutputChannels`, never negative) and the member `parameters`. -/
structure PluginProcessor where
  totalNumInputChannels : Nat
  totalNumOutputChannels : Nat
  parameters : AudioProcessorValueTreeState
deriving DecidableEq, Repr

/-- The constructor `PluginProcessor::PluginProcessor`: a stereo output unless
the plugin is a MIDI effect, a stereo input when it is neither a MIDI effect
nor a synth, and the parameter store tagged `"PARAMETER_STATE"`. -/
def PluginProcessor.ctor (cfg : PluginConfig) : PluginProcessor :=
  ⟨if cfg.JucePlugin_IsMidiEffect then 0 else if cfg.JucePlugin_IsSynth then 0 else 2,
    if cfg.JucePlugin_IsMidiEffect then 0 else 2,
    AudioProcessorValueTreeState.create "PARAMETER_STATE" createParameterLayout⟩

/-- The main input and main output channel sets of a `BusesLayout`
(`getMainInputChannelSet`, `getMainOutputChannelSet`); the channel set type
belongs to the framework. -/
structure BusesLayout (AudioChannelSet : Type) where
  getMainInputChannelSet : AudioChannelSet
  getMainOutputChannelSet : AudioChannelSet

/-- The method `PluginProcessor::isBusesLayoutSupported`; `mono` and `stereo`
are the framework constants `AudioChannelSet::mono()` and
`AudioChannelSet::stereo()`. -/
def isBusesLayoutSupported {AudioChannelSet : Type} [DecidableEq AudioChannelSet]
    (cfg : PluginConfig) (mono stereo : AudioChannelSet)
    (layouts : BusesLayout AudioChannelSet) : Bool :=
  if cfg.JucePlugin_IsMidiEffect then true
  else if layouts.getMainOutputChannelSet ≠ mono ∧ layouts.getMainOutputChannelSet ≠ stereo then
    false
  else if cfg.JucePlugin_IsSynth = false
      ∧ layouts.getMainOutputChannelSet ≠ layouts.getMainInputChannelSet then
    false
  else true

/-- The loop `for (i = totalNumInputChannels; i < totalNumOutputChannels; ++i)
buffer.clear (i, 0, numSamples)`, with `count` iterations left. -/
def clearLoop (numSamples : Nat) : Nat → Nat → AudioBuffer → Option AudioBuffer
  | 0, _, buffer => some buffer
  | count + 1, i, buffer =>
    match buffer.clear i 0 numSamples with
    | none => none
    | some cleared => clearLoop numSamples count (i + 1) cleared

/-- The sample loop `channelData[sample] *= currentGain`, with `count`
iterations left. -/
def sampleLoop (flush : Bool) (currentGain : F32) : Nat → Nat → List F32 → List F32
  | 0, _, channelData => channelData
  | count + 1, sample, channelData =>
    sampleLoop flush currentGain count (sample + 1)
      (channelData.modify (fun x => F32.mul flush x currentGain) sample)

/-- The channel loop of `processBlock`, with `count` iterations left. -/
def channelLoop (flush : Bool) (currentGain : F32) (numSamples : Nat) :
    Nat → Nat → AudioBuffer → Option AudioBuffer
  | 0, _, buffer => some buffer
  | count + 1, channel, buffer =>
    match buffer.getWritePointer channel with
    | none => none
    | some channelData =>
      channelLoop flush currentGain numSamples count (channel + 1)
        (buffer.store channel (sampleLoop flush currentGain numSamples 0 channelData))

/-- The method `PluginProcessor::processBlock`.  `denormalsFlushed` tells
whether `juce::ScopedNoDenormals` puts the arithmetic into flush-to-zero mode on
the target.  The result is the processor after the call and the block after the
call; `none` stands for an access outside the block or a null parameter
pointer. -/
def processBlock (denormalsFlushed : Bool) (p : PluginProcessor) (buffer : AudioBuffer)
    (_midiMessages : MidiBuffer) : Option (PluginProcessor × AudioBuffer) :=
  let totalNumInputChannels := p.totalNumInputChannels
  let totalNumOutputChannels := p.totalNumOutputChannels
  let numSamples := buffer.getNumSamples
  match clearLoop numSamples (totalNumOutputChannels - totalNumInputChannels)
      totalNumInputChannels buffer with
  | none => none
  | some cleared =>
    match p.parameters.getRawParameterValue "gain" with
    | none => none
    | some currentGain =>
      match channelLoop denormalsFlushed currentGain numSamples totalNumInputChannels 0
          cleared with
      | none => none
      | some out => some (p, out)

/-- The method `PluginProcessor::getStateInformation`: the bytes written to
`destData`. -/
def getStateInformation {XmlElement : Type} (fw : XmlCodec XmlElement) (p : PluginProcessor) :
    MemoryBlock :=
  let state := p.parameters.copyState
  let xml := fw.createXml state
  fw.copyXmlToBinary xml

/-- The method `PluginProcessor::setStateInformation` on the `sizeInBytes`
bytes at `data`. -/
def setStateInformation {XmlElement : Type} (fw : XmlCodec XmlElement) (p : PluginProcessor)
    (data : MemoryBlock) : PluginProcessor :=
  match fw.getXmlFromBinary data with
  | none => p
  | some xml =>
    if fw.hasTagName xml p.parameters.stateType then
      ⟨p.totalNumInputChannels, p.totalNumOutputChannels,
        p.parameters.replaceState (fw.fromXml xml)⟩
    else p

/-- The processors reachable from construction by parameter writes,
`setStateInformation` calls and changes of the enabled bus layout by the
host. -/
inductive Reachable {XmlElement : Type} (fw : XmlCodec XmlElement) (cfg : PluginConfig) :
    PluginProcessor → Prop where
  | ctor : Reachable fw cfg (PluginProcessor.ctor cfg)
  | set (p : PluginProcessor) (id : String) (value : F32) :
      Reachable fw cfg p →
      Reachable fw cfg ⟨p.totalNumInputChannels, p.totalNumOutputChannels,
        p.parameters.set id value⟩
  | load (p : PluginProcessor) (data : MemoryBlock) :
      Reachable fw cfg p → Reachable fw cfg (setStateInformation fw p data)
  | buses (p : PluginProcessor) (numInputChannels numOutputChannels : Nat) :
      Reachable fw cfg p →
      Reachable fw cfg ⟨numInputChannels, numOutputChannels, p.parameters⟩

/-- The parameter store of this plugin when the current gain is `c`: the store
built by the constructor with the current value of `"gain"` replaced. -/
def gainStore (c : F32) : AudioProcessorValueTreeState :=
  ⟨"PARAMETER_STATE", [⟨"gain", "Gain", F32.zero, F32.two, F32.hundredth, F32.one, c⟩]⟩

/-! ## A concrete codec -/

/-- The four bytes of a 32-bit pattern, least significant first. -/
def bytesOfBits (n : Nat) : MemoryBlock :=
  [⟨n % 256, Nat.mod_lt _ (by decide)⟩, ⟨n / 256 % 256, Nat.mod_lt _ (by decide)⟩,
    ⟨n / 65536 % 256, Nat.mod_lt _ (by decide)⟩, ⟨n / 16777216 % 256, Nat.mod_lt _ (by decide)⟩]

/-- A small codec for the one-parameter state, used to run the persistence
methods on concrete inputs: the document is the state itself and the blob is
the bit pattern of the stored gain; any blob that is not four bytes long is
unreadable. -/
def gainCodec : XmlCodec ValueTree :=
  ⟨fun data =>
      match data with
      | [b0, b1, b2, b3] =>
        some ⟨"PARAMETER_STATE",
          [("gain", F32.ofBits (b0.val + 256 * b1.val + 65536 * b2.val + 16777216 * b3.val))]⟩
      | _ => none,
    fun xml =>
      match xml.values.lookup "gain" with
      | some v => bytesOfBits (F32.toBits v)
      | none => [],
    fun xml name => decide (xml.type = name),
    fun t => t,
    fun xml => xml,
    fun xml => xml.type⟩

theorem F32.bitLengthAux_spec (fuel n : Nat) (h : n ≤ fuel) :
    n < 2 ^ F32.bitLengthAux fuel n ∧ (0 < n → 2 ^ (F32.bitLengthAux fuel n - 1) ≤ n) := by
  induction fuel generalizing n with
  | zero =>
    have h0 : n = 0 := by omega
    subst h0
    simp [F32.bitLengthAux]
  | succ f ih =>
    by_cases hn : n = 0
    · subst hn
      simp [F32.bitLengthAux]
    · have hhalf : n / 2 ≤ f := by omega
      obtain ⟨h1, h2⟩ := ih (n / 2) hhalf
      simp only [F32.bitLengthAux, hn, if_false, Nat.add_sub_cancel]
      refine ⟨?_, fun _ => ?_⟩
      · rw [Nat.pow_succ]
        omega
      · by_cases hz : n / 2 = 0
        · have hk : F32.bitLengthAux f (n / 2) = 0 := by
            rw [hz]
            cases f <;> simp [F32.bitLengthAux]
          rw [hk]
          simp only [Nat.pow_zero]
          omega
        · have h3 := h2 (by omega)
          have hpos : 0 < F32.bitLengthAux f (n / 2) := by
            by_contra hcon
            have hk : F32.bitLengthAux f (n / 2) = 0 := by omega
            rw [hk] at h1
            simp only [Nat.pow_zero] at h1
            omega
          have he : F32.bitLengthAux f (n / 2) = (F32.bitLengthAux f (n / 2) - 1) + 1 := by omega
          rw [he, Nat.pow_succ]
          omega

/-- The fuel of `bitLength` is enough: the result is the number of binary
digits of `n`. -/
theorem F32.bitLength_spec (n : Nat) :
    n < 2 ^ F32.bitLength n ∧ (0 < n → 2 ^ (F32.bitLength n - 1) ≤ n) :=
  F32.bitLengthAux_spec n n (le_refl n)

/-- Products computed by `F32.mul`, compared with the binary32 results: an
inexact product, an overflow, two ties on the subnormal grid, a subnormal
result with and without flush-to-zero, a subnormal operand under flush-to-zero,
a negative product and the invalid product of an infinity and a zero. -/
theorem F32.mul_examples :
    F32.mul false F32.hundredth F32.hundredth = F32.ofBits 0x38D1B717
    ∧ F32.mul false (F32.ofBits 0x7F7FFFFF) F32.two = F32.inf false
    ∧ F32.mul false (F32.ofBits 0x00000001) F32.half = F32.zero
    ∧ F32.mul false (F32.ofBits 0x00000003) F32.half = F32.ofBits 0x00000002
    ∧ F32.mul false (F32.ofBits 0x00800000) F32.half = F32.ofBits 0x00400000
    ∧ F32.mul true (F32.ofBits 0x00800000) F32.half = F32.zero
    ∧ F32.mul true (F32.ofBits 0x00400000) F32.two = F32.zero
    ∧ F32.mul false (F32.ofBits 0x00400000) F32.two = F32.ofBits 0x00800000
    ∧ F32.mul true (F32.ofBits 0xBFC00000) F32.two = F32.ofBits 0xC0400000
    ∧ F32.mul true (F32.inf true) F32.zero = F32.nan := by
  decide

/-! ## The loops of `processBlock` -/

theorem AudioBuffer.clearSamples_length (count sample : Nat) (data : List F32) :
    (AudioBuffer.clearSamples count sample data).length = data.length := by
  induction count generalizing sample data with
  | zero => rfl
  | succ n ih => simp [AudioBuffer.clearSamples, ih]

theorem AudioBuffer.clearSamples_getElem? (count sample : Nat) (data : List F32) (i : Nat) :
    (AudioBuffer.clearSamples count sample data)[i]? =
      (data[i]?).map (fun x => if sample ≤ i ∧ i < sample + count then F32.zero else x) := by
  induction count generalizing sample data with
  | zero =>
    have h : ¬ (sample ≤ i ∧ i < sample) := by omega
    simp only [AudioBuffer.clearSamples]
    cases data[i]? <;> simp [h]
  | succ n ih =>
    rw [AudioBuffer.clearSamples, ih, List.getElem?_set]
    by_cases hi : i < data.length
    · rw [List.getElem?_eq_getElem hi]
      by_cases h1 : sample = i
      · have h2 : ¬ (sample + 1 ≤ i ∧ i < sample + 1 + n) := by omega
        have h3 : sample ≤ i ∧ i < sample + (n + 1) := by omega
        have h4 : sample < data.length := by omega
        simp [h1, h2, h3, hi]
      · have h2 : (sample + 1 ≤ i ∧ i < sample + 1 + n) ↔ (sample ≤ i ∧ i < sample + (n + 1)) := by
          omega
        simp [h1, h2]
    · have hn : data[i]? = none := List.getElem?_eq_none (by omega)
      by_cases h1 : sample = i
      · have h4 : ¬ sample < data.length := by omega
        simp [h1, hn, hi]
      · simp [h1, hn]

theorem sampleLoop_length (flush : Bool) (g : F32) (count sample : Nat) (data : List F32) :
    (sampleLoop flush g count sample data).length = data.length := by
  induction count generalizing sample data with
  | zero => rfl
  | succ n ih => simp [sampleLoop, ih]

theorem sampleLoop_getElem? (flush : Bool) (g : F32) (count sample : Nat) (data : List F32)
    (i : Nat) :
    (sampleLoop flush g count sample data)[i]? =
      (data[i]?).map (fun x => if sample ≤ i ∧ i < sample + count then F32.mul flush x g else x) := by
  induction count generalizing sample data with
  | zero =>
    have h : ¬ (sample ≤ i ∧ i < sample) := by omega
    simp only [sampleLoop]
    cases data[i]? <;> simp [h]
  | succ n ih =>
    rw [sampleLoop, ih, List.getElem?_modify]
    cases hd : data[i]? with
    | none => simp
    | some x =>
      by_cases h1 : sample = i
      · have h2 : ¬ (sample + 1 ≤ i ∧ i < sample + 1 + n) := by omega
        have h3 : sample ≤ i ∧ i < sample + (n + 1) := by omega
        simp [h1, h2, h3]
      · have h2 : (sample + 1 ≤ i ∧ i < sample + 1 + n) ↔ (sample ≤ i ∧ i < sample + (n + 1)) := by
          omega
        simp [h1, h2]

theorem clearLoop_spec (numSamples count i : Nat) (b : AudioBuffer)
    (hc : i + count ≤ b.channels.length) (hn : numSamples ≤ b.size) :
    ∃ out, clearLoop numSamples count i b = some out ∧ out.size = b.size ∧
      out.channels.length = b.channels.length ∧
      ∀ c, out.channels[c]? = (b.channels[c]?).map (fun d =>
        if i ≤ c ∧ c < i + count then AudioBuffer.clearSamples numSamples 0 d else d) := by
  induction count generalizing i b with
  | zero =>
    refine ⟨b, rfl, rfl, rfl, fun c => ?_⟩
    have h : ¬ (i ≤ c ∧ c < i) := by omega
    cases b.channels[c]? <;> simp [h]
  | succ n ih =>
    have hclear : b.clear i 0 numSamples =
        some ⟨b.size, b.channels.modify (AudioBuffer.clearSamples numSamples 0) i⟩ := by
      have h : i < b.channels.length ∧ 0 + numSamples ≤ b.size := by omega
      simp only [AudioBuffer.clear, h, and_self, if_true]
    obtain ⟨out, h1, h2, h3, h4⟩ :=
      ih (i + 1) ⟨b.size, b.channels.modify (AudioBuffer.clearSamples numSamples 0) i⟩
        (by simp only [List.length_modify]; omega) hn
    refine ⟨out, ?_, h2, ?_, fun c => ?_⟩
    · simp only [clearLoop, hclear, h1]
    · rw [h3]; simp only [List.length_modify]
    · rw [h4 c]
      simp only [List.getElem?_modify]
      cases b.channels[c]? with
      | none => rfl
      | some d =>
        by_cases hic : i = c
        · have ha : ¬ (i + 1 ≤ c ∧ c < i + 1 + n) := by omega
          have hb : i ≤ c ∧ c < i + (n + 1) := by omega
          simp [hic, ha, hb]
        · have ha : (i + 1 ≤ c ∧ c < i + 1 + n) ↔ (i ≤ c ∧ c < i + (n + 1)) := by omega
          simp [hic, ha]

theorem channelLoop_spec (flush : Bool) (g : F32) (numSamples count channel : Nat)
    (b : AudioBuffer) (hc : channel + count ≤ b.channels.length) :
    ∃ out, channelLoop flush g numSamples count channel b = some out ∧ out.size = b.size ∧
      out.channels.length = b.channels.length ∧
      ∀ c, out.channels[c]? = (b.channels[c]?).map (fun d =>
        if channel ≤ c ∧ c < channel + count then sampleLoop flush g numSamples 0 d else d) := by
  induction count generalizing channel b with
  | zero =>
    refine ⟨b, rfl, rfl, rfl, fun c => ?_⟩
    have h : ¬ (channel ≤ c ∧ c < channel) := by omega
    cases b.channels[c]? <;> simp [h]
  | succ n ih =>
    have hlt : channel < b.channels.length := by omega
    have hptr : b.getWritePointer channel = some b.channels[channel] := by
      simp only [AudioBuffer.getWritePointer, List.getElem?_eq_getElem hlt]
    obtain ⟨out, h1, h2, h3, h4⟩ :=
      ih (channel + 1) (b.store channel (sampleLoop flush g numSamples 0 b.channels[channel]))
        (by simp only [AudioBuffer.store, List.length_set]; omega)
    refine ⟨out, ?_, h2, ?_, fun c => ?_⟩
    · simp only [channelLoop, hptr, h1]
    · rw [h3]; simp only [AudioBuffer.store, List.length_set]
    · rw [h4 c]
      simp only [AudioBuffer.store, List.getElem?_set]
      by_cases hic : channel = c
      · subst hic
        have ha : ¬ (channel + 1 ≤ channel ∧ channel < channel + 1 + n) := by omega
        have hb : channel ≤ channel ∧ channel < channel + (n + 1) := by omega
        simp [hlt, ha, hb]
      · have ha : (channel + 1 ≤ c ∧ c < channel + 1 + n) ↔
            (channel ≤ c ∧ c < channel + (n + 1)) := by omega
        simp only [hic, if_false, ha]

/-- The block computed by `processBlock`, channel by channel: a channel below
the input count is scaled, a channel from the input count up to the output
count is cleared, every other channel is kept. -/
theorem processBlock_channels (flush : Bool) (p : PluginProcessor) (buffer : AudioBuffer)
    (midi : MidiBuffer) (g : F32)
    (hI : p.totalNumInputChannels ≤ buffer.getNumChannels)
    (hO : p.totalNumOutputChannels ≤ buffer.getNumChannels)
    (hg : p.parameters.getRawParameterValue "gain" = some g) :
    ∃ out, processBlock flush p buffer midi = some (p, out) ∧ out.size = buffer.size ∧
      out.channels.length = buffer.channels.length ∧
      ∀ c, out.channels[c]? = (buffer.channels[c]?).map (fun d =>
        if c < p.totalNumInputChannels then sampleLoop flush g buffer.size 0 d
        else if c < p.totalNumOutputChannels then AudioBuffer.clearSamples buffer.size 0 d
        else d) := by
  simp only [AudioBuffer.getNumChannels] at hI hO
  obtain ⟨cleared, c1, c2, c3, c4⟩ :=
    clearLoop_spec buffer.size (p.totalNumOutputChannels - p.totalNumInputChannels)
      p.totalNumInputChannels buffer (by omega) (le_refl _)
  obtain ⟨out, o1, o2, o3, o4⟩ :=
    channelLoop_spec flush g buffer.size p.totalNumInputChannels 0 cleared (by omega)
  refine ⟨out, ?_, by omega, by omega, fun c => ?_⟩
  · simp only [processBlock, AudioBuffer.getNumSamples, c1, hg, o1]
  · rw [o4 c, c4 c]
    cases buffer.channels[c]? with
    | none => rfl
    | some d =>
      by_cases h1 : c < p.totalNumInputChannels
      · have ha : ¬ (p.totalNumInputChannels ≤ c ∧
            c < p.totalNumInputChannels + (p.totalNumOutputChannels - p.totalNumInputChannels)) := by
          omega
        have hb : 0 ≤ c ∧ c < 0 + p.totalNumInputChannels := by omega
        simp [h1, ha]
      · have hb : ¬ (0 ≤ c ∧ c < 0 + p.totalNumInputChannels) := by omega
        have hd : (p.totalNumInputChannels ≤ c ∧
            c < p.totalNumInputChannels + (p.totalNumOutputChannels - p.totalNumInputChannels)) ↔
            c < p.totalNumOutputChannels := by omega
        simp [h1, hd]

/-- The block computed by `processBlock`, sample by sample, for a well-formed
block that has all the configured channels. -/
theorem processBlock_samples (flush : Bool) (p : PluginProcessor) (buffer : AudioBuffer)
    (midi : MidiBuffer) (g : F32) (hwf : buffer.WellFormed)
    (hI : p.totalNumInputChannels ≤ buffer.getNumChannels)
    (hO : p.totalNumOutputChannels ≤ buffer.getNumChannels)
    (hg : p.parameters.getRawParameterValue "gain" = some g) :
    ∃ out, processBlock flush p buffer midi = some (p, out) ∧
      out.getNumSamples = buffer.getNumSamples ∧
      out.getNumChannels = buffer.getNumChannels ∧ out.WellFormed ∧
      ∀ c s, out.getSample c s = (buffer.getSample c s).map (fun x =>
        if c < p.totalNumInputChannels then F32.mul flush x g
        else if c < p.totalNumOutputChannels then F32.zero
        else x) := by
  obtain ⟨out, h1, h2, h3, h4⟩ := processBlock_channels flush p buffer midi g hI hO hg
  refine ⟨out, h1, h2, h3, ?_, fun c s => ?_⟩
  · intro ch hch
    obtain ⟨n, hn⟩ := List.mem_iff_getElem?.mp hch
    rw [h4 n] at hn
    cases hd : buffer.channels[n]? with
    | none => rw [hd] at hn; simp at hn
    | some d =>
      have hlen : d.length = buffer.size := hwf d (List.mem_iff_getElem?.mpr ⟨n, hd⟩)
      rw [hd] at hn
      simp only [Option.map_some', Option.some.injEq] at hn
      rw [← hn, h2]
      split
      · rw [sampleLoop_length]; exact hlen
      · split
        · rw [AudioBuffer.clearSamples_length]; exact hlen
        · exact hlen
  · simp only [AudioBuffer.getSample]
    rw [h4 c]
    cases hd : buffer.channels[c]? with
    | none => rfl
    | some d =>
      have hlen : d.length = buffer.size := hwf d (List.mem_iff_getElem?.mpr ⟨c, hd⟩)
      simp only [Option.map_some', Option.some_bind]
      cases hx : d[s]? with
      | none =>
        have hs : d.length ≤ s := by
          by_contra hcon
          rw [List.getElem?_eq_getElem (by omega)] at hx
          simp at hx
        split
        · rw [sampleLoop_getElem?, hx]; rfl
        · split
          · rw [AudioBuffer.clearSamples_getElem?, hx]; rfl
          · rw [hx]; rfl
      | some x =>
        have hs : s < buffer.size := by
          obtain ⟨h, -⟩ := List.getElem?_eq_some.mp hx
          omega
        have hr : 0 ≤ s ∧ s < 0 + buffer.size := by omega
        split
        · rw [sampleLoop_getElem?, hx]; simp only [Option.map_some', hr, and_self, if_true]
        · split
          · rw [AudioBuffer.clearSamples_getElem?, hx]
            simp only [Option.map_some', hr, and_self, if_true]
          · rw [hx]; rfl

/-- A sample inside a well-formed block is present. -/
theorem AudioBuffer.getSample_isSome (b : AudioBuffer) (hwf : b.WellFormed) (c s : Nat)
    (hc : c < b.getNumChannels) (hs : s < b.getNumSamples) :
    ∃ x, b.getSample c s = some x := by
  simp only [AudioBuffer.getNumChannels] at hc
  have hd : b.channels[c]? = some b.channels[c] := List.getElem?_eq_getElem hc
  have hlen : (b.channels[c]).length = b.size :=
    hwf _ (List.mem_iff_getElem?.mpr ⟨c, hd⟩)
  have hs2 : s < (b.channels[c]).length := by
    rw [hlen]; exact hs
  refine ⟨(b.channels[c])[s], ?_⟩
  simp only [AudioBuffer.getSample, hd, Option.some_bind, List.getElem?_eq_getElem hs2]

/-! ## The parameter range -/

theorem clamp_inRange (v : F32) : inRange (clamp v F32.zero F32.two) F32.zero F32.two = true := by
  unfold clamp
  by_cases h1 : F32.lt v F32.zero = true
  · rw [if_pos h1]; decide
  · rw [if_neg h1]
    by_cases h2 : F32.le v F32.two = true
    · rw [if_pos h2]
      simp only [inRange, h2, Bool.and_true]
      cases v with
      | nan => simp [F32.le, F32.key] at h2
      | inf s => cases s <;> simp [F32.le, F32.lt, F32.key, F32.zero, F32.two] at h1 h2 ⊢
      | fin s e m =>
        cases s <;> simp [F32.le, F32.lt, F32.key, F32.zero, F32.two] at h1 h2 ⊢ <;> omega
    · rw [if_neg h2]; decide

theorem clamp_of_inRange (v : F32) (h : inRange v F32.zero F32.two = true) :
    clamp v F32.zero F32.two = v := by
  simp only [inRange, Bool.and_eq_true] at h
  obtain ⟨h1, h2⟩ := h
  have h3 : ¬ F32.lt v F32.zero = true := by
    cases v with
    | nan => simp [F32.lt, F32.key]
    | inf s => cases s <;> simp [F32.le, F32.lt, F32.key, F32.zero, F32.two] at h1 h2 ⊢
    | fin s e m =>
      cases s <;> simp [F32.le, F32.lt, F32.key, F32.zero, F32.two] at h1 h2 ⊢ <;> omega
  unfold clamp
  rw [if_neg h3, if_pos h2]

theorem clamp_below (v : F32) (h : F32.lt v F32.zero = true) :
    clamp v F32.zero F32.two = F32.zero := by
  unfold clamp
  rw [if_pos h]

theorem clamp_above (v : F32) (h : F32.lt F32.two v = true) :
    clamp v F32.zero F32.two = F32.two := by
  have h1 : ¬ F32.lt v F32.zero = true := by
    cases v with
    | nan => simp [F32.lt, F32.key]
    | inf s => cases s <;> revert h <;> decide
    | fin s e m =>
      cases s <;> simp [F32.lt, F32.key, F32.zero, F32.two] at h ⊢ <;> omega
  have h2 : ¬ F32.le v F32.two = true := by
    cases v with
    | nan => simp [F32.le, F32.key]
    | inf s => cases s <;> revert h <;> decide
    | fin s e m =>
      cases s <;> simp [F32.lt, F32.le, F32.key, F32.zero, F32.two] at h ⊢ <;> omega
  unfold clamp
  rw [if_neg h1, if_neg h2]

/-! ## The parameter store of the plugin -/

theorem ctor_parameters (cfg : PluginConfig) :
    (PluginProcessor.ctor cfg).parameters = gainStore F32.one := rfl

theorem gainStore_get (c : F32) :
    (gainStore c).getRawParameterValue "gain" = some c := by
  simp [gainStore, AudioProcessorValueTreeState.getRawParameterValue]

theorem gainStore_set_gain (c v : F32) :
    (gainStore c).set "gain" v = gainStore (clamp v F32.zero F32.two) := by
  simp [gainStore, AudioProcessorValueTreeState.set]

theorem gainStore_set_other (c v : F32) (id : String) (h : id ≠ "gain") :
    (gainStore c).set id v = gainStore c := by
  have h2 : ¬ ("gain" = id) := fun e => h e.symm
  simp [gainStore, AudioProcessorValueTreeState.set, h2]

theorem gainStore_replaceState (c : F32) (t : ValueTree) :
    (gainStore c).replaceState t =
      gainStore (match t.values.lookup "gain" with
        | some v => clamp v F32.zero F32.two
        | none => F32.one) := by
  simp only [gainStore, AudioProcessorValueTreeState.replaceState, List.map_cons, List.map_nil]
  cases t.values.lookup "gain" <;> rfl

theorem setStateInformation_unreadable {XmlElement : Type} (fw : XmlCodec XmlElement)
    (p : PluginProcessor) (data : MemoryBlock) (h : fw.getXmlFromBinary data = none) :
    setStateInformation fw p data = p := by
  simp only [setStateInformation, h]

theorem setStateInformation_other_tag {XmlElement : Type} (fw : XmlCodec XmlElement)
    (p : PluginProcessor) (data : MemoryBlock) (xml : XmlElement)
    (h : fw.getXmlFromBinary data = some xml)
    (ht : fw.hasTagName xml p.parameters.stateType = false) :
    setStateInformation fw p data = p := by
  simp only [setStateInformation, h, ht, Bool.false_eq_true, if_false]

theorem setStateInformation_loaded {XmlElement : Type} (fw : XmlCodec XmlElement)
    (p : PluginProcessor) (data : MemoryBlock) (xml : XmlElement)
    (h : fw.getXmlFromBinary data = some xml)
    (ht : fw.hasTagName xml p.parameters.stateType = true) :
    setStateInformation fw p data =
      ⟨p.totalNumInputChannels, p.totalNumOutputChannels,
        p.parameters.replaceState (fw.fromXml xml)⟩ := by
  simp only [setStateInformation, h, ht, if_true]

/-- Every processor reachable from construction holds the one-parameter store,
and its current gain lies in the declared range. -/
theorem reachable_gainStore {XmlElement : Type} (fw : XmlCodec XmlElement) (cfg : PluginConfig)
    (p : PluginProcessor) (h : Reachable fw cfg p) :
    ∃ c, p.parameters = gainStore c ∧ inRange c F32.zero F32.two = true := by
  induction h with
  | ctor => exact ⟨F32.one, rfl, by decide⟩
  | set p id value _ ih =>
    obtain ⟨c, hc, hr⟩ := ih
    by_cases hid : id = "gain"
    · subst hid
      exact ⟨clamp value F32.zero F32.two, by simp only [hc, gainStore_set_gain],
        clamp_inRange value⟩
    · exact ⟨c, by simp only [hc, gainStore_set_other c value id hid], hr⟩
  | load p data _ ih =>
    obtain ⟨c, hc, hr⟩ := ih
    cases hx : fw.getXmlFromBinary data with
    | none =>
      rw [setStateInformation_unreadable fw p data hx]
      exact ⟨c, hc, hr⟩
    | some xml =>
      cases ht : fw.hasTagName xml p.parameters.stateType with
      | false =>
        rw [setStateInformation_other_tag fw p data xml hx ht]
        exact ⟨c, hc, hr⟩
      | true =>
        rw [setStateInformation_loaded fw p data xml hx ht]
        simp only [hc, gainStore_replaceState]
        cases (fw.fromXml xml).values.lookup "gain" with
        | none => exact ⟨F32.one, rfl, by decide⟩
        | some v => exact ⟨clamp v F32.zero F32.two, rfl, clamp_inRange v⟩
  | buses p i o _ ih => exact ih

/-! ## Products used by the scenarios -/

theorem F32.mul_zero_of_fin (flush : Bool) (s : Bool) (e : Fin 255) (m : Fin 8388608) :
    F32.mul flush (.fin s e m) F32.zero = .fin s 0 0 := by
  simp [F32.mul, F32.zero, F32.significand]

theorem F32.mul_zero_of_not_finite (flush : Bool) (x : F32) (h : x.isFinite = false) :
    F32.mul flush x F32.zero = F32.nan := by
  cases x with
  | nan => rfl
  | inf s => simp [F32.mul, F32.zero, F32.significand]
  | fin s e m => simp [F32.isFinite] at h

theorem F32.mul_half_one (flush : Bool) : F32.mul flush F32.half F32.one = F32.half := by
  cases flush <;> decide

theorem F32.mul_half_two (flush : Bool) : F32.mul flush F32.half F32.two = F32.one := by
  cases flush <;> decide

/-! ## Claims about `processBlock` -/

/-- C1 (counterexample): the claim says that every channel of the block is
multiplied by the gain.  A processor built in the synth configuration has no
input channel and two output channels: on a two-channel block holding 0.5, with
the default gain 1.0, both channels come out as 0.0, not as 0.5 * 1.0 = 0.5.
A processor built in the effect configuration (two inputs, two outputs) with
gain 2.0 leaves the third channel of a three-channel block at 0.5, not at
0.5 * 2.0 = 1.0. -/
theorem C1_counterexample_channels_not_scaled :
    (PluginProcessor.ctor ⟨false, true⟩).parameters.getRawParameterValue "gain" = some F32.one
    ∧ processBlock true (PluginProcessor.ctor ⟨false, true⟩) ⟨1, [[F32.half], [F32.half]]⟩ []
      = some (PluginProcessor.ctor ⟨false, true⟩, ⟨1, [[F32.zero], [F32.zero]]⟩)
    ∧ F32.mul true F32.half F32.one = F32.half
    ∧ F32.zero ≠ F32.half
    ∧ processBlock true ⟨2, 2, (PluginProcessor.ctor PluginConfig.effect).parameters.set "gain" F32.two⟩
        ⟨1, [[F32.half], [F32.half], [F32.half]]⟩ []
      = some (⟨2, 2, (PluginProcessor.ctor PluginConfig.effect).parameters.set "gain" F32.two⟩,
          ⟨1, [[F32.one], [F32.one], [F32.half]]⟩)
    ∧ F32.mul true F32.half F32.two = F32.one
    ∧ F32.half ≠ F32.one := by
  decide

/-- C1 (amended): for every well-formed block with C channels of N samples that
has at least the configured input and output channel counts, and every current
gain g, `processBlock` returns, the block still has C channels of N samples,
and every sample of every channel below the input channel count equals its
input value multiplied by g; when the input channel count is C, that is every
sample of every channel of the block. -/
theorem C1_processBlock_scales_input_channels (flush : Bool) (p : PluginProcessor)
    (buffer : AudioBuffer) (midi : MidiBuffer) (g : F32) (hwf : buffer.WellFormed)
    (hI : p.totalNumInputChannels ≤ buffer.getNumChannels)
    (hO : p.totalNumOutputChannels ≤ buffer.getNumChannels)
    (hg : p.parameters.getRawParameterValue "gain" = some g) :
    ∃ out, processBlock flush p buffer midi = some (p, out) ∧
      out.getNumChannels = buffer.getNumChannels ∧
      out.getNumSamples = buffer.getNumSamples ∧ out.WellFormed ∧
      (∀ c s, c < p.totalNumInputChannels → s < buffer.getNumSamples →
        ∃ x, buffer.getSample c s = some x ∧ out.getSample c s = some (F32.mul flush x g)) ∧
      (p.totalNumInputChannels = buffer.getNumChannels →
        ∀ c s, c < buffer.getNumChannels → s < buffer.getNumSamples →
          ∃ x, buffer.getSample c s = some x ∧ out.getSample c s = some (F32.mul flush x g)) := by
  obtain ⟨out, h1, h2, h3, h4, h5⟩ := processBlock_samples flush p buffer midi g hwf hI hO hg
  have key : ∀ c s, c < p.totalNumInputChannels → s < buffer.getNumSamples →
      ∃ x, buffer.getSample c s = some x ∧ out.getSample c s = some (F32.mul flush x g) := by
    intro c s hc hs
    obtain ⟨x, hx⟩ := AudioBuffer.getSample_isSome buffer hwf c s (by omega) hs
    refine ⟨x, hx, ?_⟩
    rw [h5 c s, hx]
    simp only [Option.map_some', hc, if_true]
  refine ⟨out, h1, h3, h2, h4, key, fun hIC c s hc hs => key c s (by omega) hs⟩

/-- C1 (witness): the stereo processor of the effect configuration, at the
gain 1.0 it is built with, on a stereo block of two samples. -/
theorem C1_witness_stereo_block :
    ∃ out, processBlock true (PluginProcessor.ctor PluginConfig.effect)
        ⟨2, [[F32.half, F32.one], [F32.two, F32.zero]]⟩ []
        = some (PluginProcessor.ctor PluginConfig.effect, out) ∧
      out.getNumChannels = 2 ∧ out.getNumSamples = 2 ∧ out.WellFormed ∧
      (∀ c s, c < 2 → s < 2 →
        ∃ x, AudioBuffer.getSample ⟨2, [[F32.half, F32.one], [F32.two, F32.zero]]⟩ c s = some x ∧
          out.getSample c s = some (F32.mul true x F32.one)) ∧
      ((2 : Nat) = 2 →
        ∀ c s, c < 2 → s < 2 →
          ∃ x, AudioBuffer.getSample ⟨2, [[F32.half, F32.one], [F32.two, F32.zero]]⟩ c s = some x ∧
            out.getSample c s = some (F32.mul true x F32.one)) :=
  C1_processBlock_scales_input_channels true (PluginProcessor.ctor PluginConfig.effect)
    ⟨2, [[F32.half, F32.one], [F32.two, F32.zero]]⟩ [] F32.one
    (by unfold AudioBuffer.WellFormed; decide) (by decide) (by decide) (by decide)

/-- C6 (counterexample): with gain 0.0 an input sample does not always become
0.0: a NaN sample and an infinite sample both come out as NaN, with or without
flush-to-zero arithmetic. -/
theorem C6_counterexample_nan_sample :
    ((PluginProcessor.ctor PluginConfig.effect).parameters.set "gain"
      F32.zero).getRawParameterValue "gain" = some F32.zero
    ∧ processBlock true
        ⟨2, 2, (PluginProcessor.ctor PluginConfig.effect).parameters.set "gain" F32.zero⟩
        ⟨1, [[F32.nan], [F32.inf false]]⟩ []
      = some (⟨2, 2, (PluginProcessor.ctor PluginConfig.effect).parameters.set "gain" F32.zero⟩,
          ⟨1, [[F32.nan], [F32.nan]]⟩)
    ∧ processBlock false
        ⟨2, 2, (PluginProcessor.ctor PluginConfig.effect).parameters.set "gain" F32.zero⟩
        ⟨1, [[F32.nan], [F32.inf false]]⟩ []
      = some (⟨2, 2, (PluginProcessor.ctor PluginConfig.effect).parameters.set "gain" F32.zero⟩,
          ⟨1, [[F32.nan], [F32.nan]]⟩)
    ∧ F32.nan ≠ F32.zero ∧ F32.isZero F32.nan = false := by
  decide

/-- C6 (amended): scenario values of `processBlock` on a well-formed block that
has the configured channels.  With gain 0.0 every finite input sample of an
input channel becomes a zero (0.0, or -0.0 for a negative sample), while a NaN
or infinite sample becomes NaN; with gain 1.0, the default of a freshly
constructed processor, an input sample 0.5 yields 0.5; with gain 2.0 an input
sample 0.5 yields 1.0. -/
theorem C6_processBlock_scenarios (flush : Bool) (p : PluginProcessor) (buffer : AudioBuffer)
    (midi : MidiBuffer) (g : F32) (hwf : buffer.WellFormed)
    (hI : p.totalNumInputChannels ≤ buffer.getNumChannels)
    (hO : p.totalNumOutputChannels ≤ buffer.getNumChannels)
    (hg : p.parameters.getRawParameterValue "gain" = some g) :
    (∃ out, processBlock flush p buffer midi = some (p, out) ∧
      ∀ c s x, c < p.totalNumInputChannels → buffer.getSample c s = some x →
        (g = F32.zero → x.isFinite = true →
          ∃ z, out.getSample c s = some z ∧ z.isZero = true) ∧
        (g = F32.zero → x.isFinite = false → out.getSample c s = some F32.nan) ∧
        (g = F32.one → x = F32.half → out.getSample c s = some F32.half) ∧
        (g = F32.two → x = F32.half → out.getSample c s = some F32.one)) ∧
    ∀ cfg, (PluginProcessor.ctor cfg).parameters.getRawParameterValue "gain" = some F32.one := by
  obtain ⟨out, h1, -, -, -, h5⟩ := processBlock_samples flush p buffer midi g hwf hI hO hg
  refine ⟨⟨out, h1, fun c s x hc hx => ?_⟩, fun cfg => ?_⟩
  · have ho : out.getSample c s = some (F32.mul flush x g) := by
      rw [h5 c s, hx]
      simp only [Option.map_some', hc, if_true]
    refine ⟨fun hz hf => ?_, fun hz hf => ?_, fun h1 hh => ?_, fun h2 hh => ?_⟩
    · cases x with
      | nan => simp [F32.isFinite] at hf
      | inf t => simp [F32.isFinite] at hf
      | fin t e m =>
        refine ⟨.fin t 0 0, ?_, by simp [F32.isZero]⟩
        rw [ho, hz, F32.mul_zero_of_fin]
    · rw [ho, hz, F32.mul_zero_of_not_finite flush x hf]
    · rw [ho, h1, hh, F32.mul_half_one]
    · rw [ho, h2, hh, F32.mul_half_two]
  · rw [ctor_parameters, gainStore_get]

/-- C6 (witness): a mono processor with gain 0.0 on a one-sample block. -/
theorem C6_witness_mono_block :
    (∃ out, processBlock true ⟨1, 1, gainStore F32.zero⟩ ⟨1, [[F32.half]]⟩ []
        = some (⟨1, 1, gainStore F32.zero⟩, out) ∧
      ∀ c s x, c < 1 → AudioBuffer.getSample ⟨1, [[F32.half]]⟩ c s = some x →
        (F32.zero = F32.zero → x.isFinite = true →
          ∃ z, out.getSample c s = some z ∧ z.isZero = true) ∧
        (F32.zero = F32.zero → x.isFinite = false → out.getSample c s = some F32.nan) ∧
        (F32.zero = F32.one → x = F32.half → out.getSample c s = some F32.half) ∧
        (F32.zero = F32.two → x = F32.half → out.getSample c s = some F32.one)) ∧
    ∀ cfg, (PluginProcessor.ctor cfg).parameters.getRawParameterValue "gain" = some F32.one :=
  C6_processBlock_scenarios true ⟨1, 1, gainStore F32.zero⟩ ⟨1, [[F32.half]]⟩ [] F32.zero
    (by unfold AudioBuffer.WellFormed; decide) (by decide) (by decide) (by decide)

/-- C7: `processBlock` is deterministic and keeps no state between calls.  Two
processors with the same channel counts and the same current gain produce the
same block from the same input block, whatever else differs and whatever MIDI
events are passed; a call leaves the processor as it was, so a second call on
an independent copy of the input block returns the identical output. -/
theorem C7_processBlock_deterministic (flush : Bool) (p q : PluginProcessor)
    (buffer : AudioBuffer) (midi midi2 : MidiBuffer)
    (hI : p.totalNumInputChannels = q.totalNumInputChannels)
    (hO : p.totalNumOutputChannels = q.totalNumOutputChannels)
    (hg : p.parameters.getRawParameterValue "gain" = q.parameters.getRawParameterValue "gain") :
    (processBlock flush p buffer midi).map Prod.snd
      = (processBlock flush q buffer midi2).map Prod.snd ∧
    ∀ p2 out, processBlock flush p buffer midi = some (p2, out) →
      p2 = p ∧ processBlock flush p2 buffer midi2 = some (p2, out) := by
  constructor
  · simp only [processBlock, hI, hO, hg]
    cases clearLoop buffer.getNumSamples (q.totalNumOutputChannels - q.totalNumInputChannels)
        q.totalNumInputChannels buffer with
    | none => rfl
    | some cleared =>
      cases q.parameters.getRawParameterValue "gain" with
      | none => rfl
      | some g =>
        dsimp only
        cases channelLoop flush g buffer.getNumSamples q.totalNumInputChannels 0 cleared with
        | none => rfl
        | some out => rfl
  · intro p2 out h
    have hp : p2 = p := by
      simp only [processBlock] at h
      split at h
      · simp at h
      · split at h
        · simp at h
        · split at h
          · simp at h
          · simp only [Option.some.injEq, Prod.mk.injEq] at h
            exact h.1.symm
    subst hp
    exact ⟨rfl, h⟩

/-- C7 (witness): the stereo processor of the effect configuration and a
processor with the same counts and gain, on the same stereo block, with
different MIDI events. -/
theorem C7_witness_two_processors :
    (processBlock true (PluginProcessor.ctor PluginConfig.effect)
        ⟨1, [[F32.half], [F32.two]]⟩ []).map Prod.snd
      = (processBlock true ⟨2, 2, gainStore F32.one⟩ ⟨1, [[F32.half], [F32.two]]⟩ [[0]]).map
          Prod.snd ∧
    ∀ p2 out, processBlock true (PluginProcessor.ctor PluginConfig.effect)
        ⟨1, [[F32.half], [F32.two]]⟩ [] = some (p2, out) →
      p2 = PluginProcessor.ctor PluginConfig.effect ∧
        processBlock true p2 ⟨1, [[F32.half], [F32.two]]⟩ [[0]] = some (p2, out) :=
  C7_processBlock_deterministic true (PluginProcessor.ctor PluginConfig.effect)
    ⟨2, 2, gainStore F32.one⟩ ⟨1, [[F32.half], [F32.two]]⟩ [] [[0]] (by decide) (by decide)
    (by decide)

/-- C8: channel partition of `processBlock`.  With I input channels and O
output channels configured and a well-formed block of C channels, C at least
max(I, O): every channel below I holds its input multiplied by the gain, every
channel from I up to O holds 0.0 in all of its samples whatever it held, and
every channel from max(I, O) on is exactly as it was; no channel is both
cleared and multiplied. -/
theorem C8_processBlock_channel_partition (flush : Bool) (p : PluginProcessor)
    (buffer : AudioBuffer) (midi : MidiBuffer) (g : F32) (hwf : buffer.WellFormed)
    (hC : max p.totalNumInputChannels p.totalNumOutputChannels ≤ buffer.getNumChannels)
    (hg : p.parameters.getRawParameterValue "gain" = some g) :
    ∃ out, processBlock flush p buffer midi = some (p, out) ∧
      out.getNumChannels = buffer.getNumChannels ∧
      out.getNumSamples = buffer.getNumSamples ∧
      (∀ c s, c < p.totalNumInputChannels → s < buffer.getNumSamples →
        ∃ x, buffer.getSample c s = some x ∧ out.getSample c s = some (F32.mul flush x g)) ∧
      (∀ c s, p.totalNumInputChannels ≤ c → c < p.totalNumOutputChannels →
        s < buffer.getNumSamples → out.getSample c s = some F32.zero) ∧
      (∀ c, max p.totalNumInputChannels p.totalNumOutputChannels ≤ c →
        out.channels[c]? = buffer.channels[c]?) ∧
      (∀ c, ¬ (c < p.totalNumInputChannels ∧
        (p.totalNumInputChannels ≤ c ∧ c < p.totalNumOutputChannels))) := by
  have hI : p.totalNumInputChannels ≤ buffer.getNumChannels := by omega
  have hO : p.totalNumOutputChannels ≤ buffer.getNumChannels := by omega
  obtain ⟨out, h1, h2, h3, -, h5⟩ := processBlock_samples flush p buffer midi g hwf hI hO hg
  obtain ⟨out2, k1, -, -, k4⟩ := processBlock_channels flush p buffer midi g hI hO hg
  have ho : out2 = out := by
    rw [h1] at k1
    simp only [Option.some.injEq, Prod.mk.injEq, true_and] at k1
    exact k1.symm
  subst ho
  refine ⟨out2, h1, h3, h2, fun c s hc hs => ?_, fun c s hc1 hc2 hs => ?_, fun c hc => ?_,
    fun c => by omega⟩
  · obtain ⟨x, hx⟩ := AudioBuffer.getSample_isSome buffer hwf c s (by omega) hs
    refine ⟨x, hx, ?_⟩
    rw [h5 c s, hx]
    simp only [Option.map_some', hc, if_true]
  · obtain ⟨x, hx⟩ := AudioBuffer.getSample_isSome buffer hwf c s (by omega) hs
    have hn : ¬ c < p.totalNumInputChannels := by omega
    rw [h5 c s, hx]
    simp only [Option.map_some', hn, hc2, if_true, if_false]
  · have hn1 : ¬ c < p.totalNumInputChannels := by omega
    have hn2 : ¬ c < p.totalNumOutputChannels := by omega
    rw [k4 c]
    cases buffer.channels[c]? with
    | none => rfl
    | some d => simp only [Option.map_some', hn1, hn2, if_false]

/-- C8 (witness): one input channel and two output channels on a block of three
channels. -/
theorem C8_witness_three_channels :
    ∃ out, processBlock true ⟨1, 2, gainStore F32.two⟩
        ⟨1, [[F32.half], [F32.one], [F32.two]]⟩ [] = some (⟨1, 2, gainStore F32.two⟩, out) ∧
      out.getNumChannels = 3 ∧
      out.getNumSamples = 1 ∧
      (∀ c s, c < 1 → s < 1 →
        ∃ x, AudioBuffer.getSample ⟨1, [[F32.half], [F32.one], [F32.two]]⟩ c s = some x ∧
          out.getSample c s = some (F32.mul true x F32.two)) ∧
      (∀ c s, 1 ≤ c → c < 2 → s < 1 → out.getSample c s = some F32.zero) ∧
      (∀ c, max 1 2 ≤ c →
        out.channels[c]? = [[F32.half], [F32.one], [F32.two]][c]?) ∧
      (∀ c, ¬ (c < 1 ∧ (1 ≤ c ∧ c < 2))) :=
  C8_processBlock_channel_partition true ⟨1, 2, gainStore F32.two⟩
    ⟨1, [[F32.half], [F32.one], [F32.two]]⟩ [] F32.two
    (by unfold AudioBuffer.WellFormed; decide) (by decide) (by decide)

/-! ## Claims about the parameter store and its persisted state -/

/-- C2: round trip of the persisted state.  For every processor state S
reachable from construction, the bytes written by `getStateInformation` on S,
passed to `setStateInformation` on a freshly constructed processor, leave the
fresh processor with a store equal to that of S, so with the same gain.  The
framework codec is a parameter; it is assumed to read back the document it
wrote for this state, with the tag of the state. -/
theorem C2_state_round_trip {XmlElement : Type} (fw : XmlCodec XmlElement)
    (cfg cfg2 : PluginConfig) (S : PluginProcessor) (hS : Reachable fw cfg S)
    (hbin : fw.getXmlFromBinary (fw.copyXmlToBinary (fw.createXml S.parameters.copyState))
      = some (fw.createXml S.parameters.copyState))
    (htag : fw.hasTagName (fw.createXml S.parameters.copyState) S.parameters.copyState.type
      = true)
    (hxml : fw.fromXml (fw.createXml S.parameters.copyState) = S.parameters.copyState) :
    (setStateInformation fw (PluginProcessor.ctor cfg2) (getStateInformation fw S)).parameters
      = S.parameters ∧
    (setStateInformation fw (PluginProcessor.ctor cfg2)
        (getStateInformation fw S)).parameters.getRawParameterValue "gain"
      = S.parameters.getRawParameterValue "gain" := by
  obtain ⟨c, hc, hr⟩ := reachable_gainStore fw cfg S hS
  have hstore : (setStateInformation fw (PluginProcessor.ctor cfg2)
      (getStateInformation fw S)).parameters = S.parameters := by
    have ht : fw.hasTagName (fw.createXml S.parameters.copyState)
        (PluginProcessor.ctor cfg2).parameters.stateType = true := by
      rw [← htag, hc]
      rfl
    rw [setStateInformation_loaded fw (PluginProcessor.ctor cfg2) (getStateInformation fw S)
      (fw.createXml S.parameters.copyState) hbin ht]
    have hl : ((gainStore c).copyState).values.lookup "gain" = some c := by
      simp [gainStore, AudioProcessorValueTreeState.copyState,
        AudioProcessorValueTreeState.snapshot]
    simp only [hxml]
    simp only [ctor_parameters, gainStore_replaceState, hc, hl, clamp_of_inRange c hr]
  exact ⟨hstore, by rw [hstore]⟩

/-- C2 (witness): the processor whose gain was set to 0.5, saved and loaded
through the four-byte codec. -/
theorem C2_witness_half_gain :
    (setStateInformation gainCodec (PluginProcessor.ctor PluginConfig.effect)
        (getStateInformation gainCodec
          ⟨2, 2, (PluginProcessor.ctor PluginConfig.effect).parameters.set "gain" F32.half⟩)).parameters
      = (PluginProcessor.ctor PluginConfig.effect).parameters.set "gain" F32.half ∧
    (setStateInformation gainCodec (PluginProcessor.ctor PluginConfig.effect)
        (getStateInformation gainCodec
          ⟨2, 2, (PluginProcessor.ctor PluginConfig.effect).parameters.set "gain"
            F32.half⟩)).parameters.getRawParameterValue "gain"
      = ((PluginProcessor.ctor PluginConfig.effect).parameters.set "gain"
          F32.half).getRawParameterValue "gain" :=
  C2_state_round_trip gainCodec PluginConfig.effect PluginConfig.effect
    ⟨2, 2, (PluginProcessor.ctor PluginConfig.effect).parameters.set "gain" F32.half⟩
    (Reachable.set (PluginProcessor.ctor PluginConfig.effect) "gain" F32.half Reachable.ctor)
    (by decide) (by decide) (by decide)

/-- C3: for every float v, setting the `"gain"` parameter of a processor to v
and reading it back through `getRawParameterValue ("gain")` returns
clamp(v, 0.0, 2.0): v itself when 0.0 <= v <= 2.0, 0.0 when v < 0.0 and 2.0
when v > 2.0. -/
theorem C3_set_then_get_clamps {XmlElement : Type} (fw : XmlCodec XmlElement)
    (cfg : PluginConfig) (p : PluginProcessor) (h : Reachable fw cfg p) (v : F32) :
    (p.parameters.set "gain" v).getRawParameterValue "gain"
      = some (clamp v F32.zero F32.two) ∧
    (F32.le F32.zero v = true → F32.le v F32.two = true →
      (p.parameters.set "gain" v).getRawParameterValue "gain" = some v) ∧
    (F32.lt v F32.zero = true →
      (p.parameters.set "gain" v).getRawParameterValue "gain" = some F32.zero) ∧
    (F32.lt F32.two v = true →
      (p.parameters.set "gain" v).getRawParameterValue "gain" = some F32.two) := by
  obtain ⟨c, hc, -⟩ := reachable_gainStore fw cfg p h
  have hget : (p.parameters.set "gain" v).getRawParameterValue "gain"
      = some (clamp v F32.zero F32.two) := by
    rw [hc, gainStore_set_gain, gainStore_get]
  refine ⟨hget, fun h1 h2 => ?_, fun h1 => ?_, fun h1 => ?_⟩
  · rw [hget, clamp_of_inRange v (by simp only [inRange, h1, h2, Bool.and_self])]
  · rw [hget, clamp_below v h1]
  · rw [hget, clamp_above v h1]

/-- C3 (witness): writing 4.0 to the gain of the freshly constructed
processor. -/
theorem C3_witness_write_four :
    ((PluginProcessor.ctor PluginConfig.effect).parameters.set "gain"
        (F32.fin false 129 0)).getRawParameterValue "gain"
      = some (clamp (F32.fin false 129 0) F32.zero F32.two) ∧
    (F32.le F32.zero (F32.fin false 129 0) = true → F32.le (F32.fin false 129 0) F32.two = true →
      ((PluginProcessor.ctor PluginConfig.effect).parameters.set "gain"
        (F32.fin false 129 0)).getRawParameterValue "gain" = some (F32.fin false 129 0)) ∧
    (F32.lt (F32.fin false 129 0) F32.zero = true →
      ((PluginProcessor.ctor PluginConfig.effect).parameters.set "gain"
        (F32.fin false 129 0)).getRawParameterValue "gain" = some F32.zero) ∧
    (F32.lt F32.two (F32.fin false 129 0) = true →
      ((PluginProcessor.ctor PluginConfig.effect).parameters.set "gain"
        (F32.fin false 129 0)).getRawParameterValue "gain" = some F32.two) :=
  C3_set_then_get_clamps gainCodec PluginConfig.effect (PluginProcessor.ctor PluginConfig.effect)
    Reachable.ctor (F32.fin false 129 0)

/-- C4: graceful degradation.  For every processor state, `setStateInformation`
on an empty byte sequence, or on bytes for which `getXmlFromBinary` returns
null, returns the processor with its parameter store as it was before the
call; on a freshly constructed processor the gain is still the default 1.0.
The framework reader is a parameter; it returns null on an empty blob. -/
theorem C4_unreadable_state_keeps_store {XmlElement : Type} (fw : XmlCodec XmlElement)
    (p : PluginProcessor) (data : MemoryBlock) (hEmpty : fw.getXmlFromBinary [] = none)
    (h : data = [] ∨ fw.getXmlFromBinary data = none) :
    setStateInformation fw p data = p ∧
    ∀ cfg, (setStateInformation fw (PluginProcessor.ctor cfg)
      data).parameters.getRawParameterValue "gain" = some F32.one := by
  have hx : fw.getXmlFromBinary data = none := by
    cases h with
    | inl h0 => rw [h0]; exact hEmpty
    | inr h1 => exact h1
  refine ⟨setStateInformation_unreadable fw p data hx, fun cfg => ?_⟩
  rw [setStateInformation_unreadable fw (PluginProcessor.ctor cfg) data hx, ctor_parameters,
    gainStore_get]

/-- C4 (witness): an empty blob handed to a processor whose gain is 0.5, with
the four-byte codec. -/
theorem C4_witness_empty_blob :
    setStateInformation gainCodec ⟨2, 2, gainStore F32.half⟩ [] = ⟨2, 2, gainStore F32.half⟩ ∧
    ∀ cfg, (setStateInformation gainCodec (PluginProcessor.ctor cfg)
      []).parameters.getRawParameterValue "gain" = some F32.one :=
  C4_unreadable_state_keeps_store gainCodec ⟨2, 2, gainStore F32.half⟩ [] (by decide)
    (Or.inl rfl)

/-- C5: range invariant of the store.  In every state reachable from
construction by parameter writes and `setStateInformation` calls on arbitrary
byte blobs, the current value of `"gain"` lies in [0.0, 2.0]; a gain value
loaded by `setStateInformation` is clamped into the range exactly as a write
through `set` is. -/
theorem C5_gain_stays_in_range {XmlElement : Type} (fw : XmlCodec XmlElement)
    (cfg : PluginConfig) (p : PluginProcessor) (h : Reachable fw cfg p) :
    (∃ c, p.parameters.getRawParameterValue "gain" = some c ∧
      F32.le F32.zero c = true ∧ F32.le c F32.two = true) ∧
    ∀ data xml v, fw.getXmlFromBinary data = some xml →
      fw.hasTagName xml p.parameters.stateType = true →
      (fw.fromXml xml).values.lookup "gain" = some v →
      (setStateInformation fw p data).parameters = p.parameters.set "gain" v := by
  obtain ⟨c, hc, hr⟩ := reachable_gainStore fw cfg p h
  refine ⟨⟨c, by rw [hc, gainStore_get], ?_⟩, fun data xml v hx ht hv => ?_⟩
  · simpa only [inRange, Bool.and_eq_true] using hr
  · rw [setStateInformation_loaded fw p data xml hx ht]
    simp only [hc, gainStore_replaceState, gainStore_set_gain, hv]

/-- C5 (witness): the processor that loaded a well-formed state whose stored
gain is 4.0, outside the range. -/
theorem C5_witness_loaded_four :
    (∃ c, (setStateInformation gainCodec (PluginProcessor.ctor PluginConfig.effect)
        [0, 0, 128, 64]).parameters.getRawParameterValue "gain" = some c ∧
      F32.le F32.zero c = true ∧ F32.le c F32.two = true) ∧
    ∀ data xml v, gainCodec.getXmlFromBinary data = some xml →
      gainCodec.hasTagName xml (setStateInformation gainCodec
        (PluginProcessor.ctor PluginConfig.effect) [0, 0, 128, 64]).parameters.stateType = true →
      (gainCodec.fromXml xml).values.lookup "gain" = some v →
      (setStateInformation gainCodec (setStateInformation gainCodec
        (PluginProcessor.ctor PluginConfig.effect) [0, 0, 128, 64]) data).parameters
        = (setStateInformation gainCodec (PluginProcessor.ctor PluginConfig.effect)
          [0, 0, 128, 64]).parameters.set "gain" v :=
  C5_gain_stays_in_range gainCodec PluginConfig.effect
    (setStateInformation gainCodec (PluginProcessor.ctor PluginConfig.effect) [0, 0, 128, 64])
    (Reachable.load (PluginProcessor.ctor PluginConfig.effect) [0, 0, 128, 64] Reachable.ctor)

/-- C10: in the effect configuration (neither MIDI effect nor synth),
`isBusesLayoutSupported` returns true for a bus layout if and only if the main
output channel set is mono or stereo and the main input channel set equals the
main output channel set; every other layout is rejected, among them mono in
with stereo out and any output set that is neither mono nor stereo. -/
theorem C10_effect_layout_supported_iff {AudioChannelSet : Type} [DecidableEq AudioChannelSet]
    (mono stereo : AudioChannelSet) (layouts : BusesLayout AudioChannelSet) :
    (isBusesLayoutSupported PluginConfig.effect mono stereo layouts = true ↔
      (layouts.getMainOutputChannelSet = mono ∨ layouts.getMainOutputChannelSet = stereo) ∧
        layouts.getMainInputChannelSet = layouts.getMainOutputChannelSet) ∧
    (mono ≠ stereo → isBusesLayoutSupported PluginConfig.effect mono stereo ⟨mono, stereo⟩ = false) ∧
    (layouts.getMainOutputChannelSet ≠ mono → layouts.getMainOutputChannelSet ≠ stereo →
      isBusesLayoutSupported PluginConfig.effect mono stereo layouts = false) := by
  refine ⟨?_, fun hne => ?_, fun h1 h2 => ?_⟩
  · simp only [isBusesLayoutSupported, PluginConfig.effect]
    by_cases h1 : layouts.getMainOutputChannelSet = mono
    · by_cases h3 : layouts.getMainOutputChannelSet = layouts.getMainInputChannelSet
      · simp [h1, h3.symm]
      · have h4 : ¬ layouts.getMainInputChannelSet = layouts.getMainOutputChannelSet :=
          fun e => h3 e.symm
        simp [h1, h3, h4]
        exact eq_comm
    · by_cases h2 : layouts.getMainOutputChannelSet = stereo
      · by_cases h3 : layouts.getMainOutputChannelSet = layouts.getMainInputChannelSet
        · simp [h2, h3.symm]
        · have h4 : ¬ layouts.getMainInputChannelSet = layouts.getMainOutputChannelSet :=
            fun e => h3 e.symm
          simp [h2, h3, h4]
          exact eq_comm
      · simp [h1, h2]
  · have h : ¬ stereo = mono := fun e => hne e.symm
    simp [isBusesLayoutSupported, PluginConfig.effect, h]
  · simp [isBusesLayoutSupported, PluginConfig.effect, h1, h2]
